import Mathlib

set_option maxRecDepth 10000

/-!
Shallow embedding of the transliteration engine of the jptyping repository.

Sources embedded:
- src/src/utils/romanize.js : the mapping table ROMAJI_TO_HIRA, the helper
  isVowel, and the scanning loop of romajiToHiragana.
- src/src/screens/PracticeScreen.jsx : the progress matcher, namely the
  lcp helper (lines 193-198) and the completion condition of onChange
  (line 252: kana === currentTarget && currentTarget.length > 0).

JavaScript strings are sequences of UTF-16 code units; we model them as
List Nat, one entry per code unit.  All string literals used below lie in
the Basic Multilingual Plane, where one code unit is one code point, so
String.data gives exactly the code-unit sequence for them.
-/

/-- Code units of a Lean string literal (BMP only, where units = points). -/
def w (s : String) : List Nat := s.data.map Char.toNat

/-- The raw mapping table of romanize.js (ROMAJI_TO_HIRA object literal),
in source order.  The two apostrophe keys (straight, code 39, and curly,
code 8217) are appended below as unit lists because Lean string literals
here avoid apostrophes. -/
def RAW : List (String × String) := [
  ("a", "あ"), ("i", "い"), ("u", "う"), ("e", "え"), ("o", "お"),
  ("ka", "か"), ("ki", "き"), ("ku", "く"), ("ke", "け"), ("ko", "こ"),
  ("kya", "きゃ"), ("kyu", "きゅ"), ("kyo", "きょ"),
  ("ga", "が"), ("gi", "ぎ"), ("gu", "ぐ"), ("ge", "げ"), ("go", "ご"),
  ("gya", "ぎゃ"), ("gyu", "ぎゅ"), ("gyo", "ぎょ"),
  ("sa", "さ"), ("shi", "し"), ("si", "し"), ("su", "す"), ("se", "せ"), ("so", "そ"),
  ("sha", "しゃ"), ("shu", "しゅ"), ("sho", "しょ"),
  ("za", "ざ"), ("zi", "じ"), ("ji", "じ"), ("zu", "ず"), ("ze", "ぜ"), ("zo", "ぞ"),
  ("ja", "じゃ"), ("jya", "じゃ"), ("ju", "じゅ"), ("jyu", "じゅ"), ("jo", "じょ"), ("jyo", "じょ"),
  ("ta", "た"), ("chi", "ち"), ("ti", "ち"), ("tsu", "つ"), ("tu", "つ"), ("te", "て"), ("to", "と"),
  ("cha", "ちゃ"), ("chu", "ちゅ"), ("cho", "ちょ"),
  ("tya", "ちゃ"), ("tyu", "ちゅ"), ("tyo", "ちょ"),
  ("da", "だ"), ("di", "ぢ"), ("du", "づ"), ("de", "で"), ("do", "ど"),
  ("dya", "ぢゃ"), ("dyu", "ぢゅ"), ("dyo", "ぢょ"),
  ("na", "な"), ("ni", "に"), ("nu", "ぬ"), ("ne", "ね"), ("no", "の"),
  ("nya", "にゃ"), ("nyu", "にゅ"), ("nyo", "にょ"),
  ("ha", "は"), ("hi", "ひ"), ("fu", "ふ"), ("hu", "ふ"), ("he", "へ"), ("ho", "ほ"),
  ("hya", "ひゃ"), ("hyu", "ひゅ"), ("hyo", "ひょ"),
  ("ba", "ば"), ("bi", "び"), ("bu", "ぶ"), ("be", "べ"), ("bo", "ぼ"),
  ("bya", "びゃ"), ("byu", "びゅ"), ("byo", "びょ"),
  ("pa", "ぱ"), ("pi", "ぴ"), ("pu", "ぷ"), ("pe", "ぺ"), ("po", "ぽ"),
  ("pya", "ぴゃ"), ("pyu", "ぴゅ"), ("pyo", "ぴょ"),
  ("ma", "ま"), ("mi", "み"), ("mu", "む"), ("me", "め"), ("mo", "も"),
  ("mya", "みゃ"), ("myu", "みゅ"), ("myo", "みょ"),
  ("ya", "や"), ("yu", "ゆ"), ("yo", "よ"),
  ("ra", "ら"), ("ri", "り"), ("ru", "る"), ("re", "れ"), ("ro", "ろ"),
  ("rya", "りゃ"), ("ryu", "りゅ"), ("ryo", "りょ"),
  ("wa", "わ"), ("wi", "うぃ"), ("we", "うぇ"), ("wo", "を"),
  ("xa", "ぁ"), ("xi", "ぃ"), ("xu", "ぅ"), ("xe", "ぇ"), ("xo", "ぉ"),
  ("n", "ん"), ("nn", "ん")]

/-- The full mapping table as code-unit lists: the RAW pairs plus the two
explicit nasal-termination keys n + straight apostrophe (110, 39) and
n + curly apostrophe (110, 8217), both mapping to hiragana N (12435). -/
def ROMAJI_TO_HIRA : List (List Nat × List Nat) :=
  RAW.map (fun q => (w q.1, w q.2)) ++ [([110, 39], [12435]), ([110, 8217], [12435])]

/-- Property lookup ROMAJI_TO_HIRA[key] of the JS object literal: the keys
are pairwise distinct, so first-match association lookup models it. -/
def tableLookup (k : List Nat) : Option (List Nat) :=
  (ROMAJI_TO_HIRA.find? (fun q => q.1 == k)).map (fun q => q.2)

/-- isVowel of romanize.js: the five lowercase vowel letters a i u e o. -/
def isVowel (c : Nat) : Bool :=
  c == 97 || c == 105 || c == 117 || c == 101 || c == 111

/-- Model of String.prototype.toLowerCase restricted to ASCII: uppercase
A-Z (65-90) maps to lowercase, every other code unit is unchanged.  (The
JS method also lowercases some non-ASCII letters; no claim here depends on
those, and hiragana and ASCII are unaffected.) -/
def toLower (u : Nat) : Nat := if 65 ≤ u && u ≤ 90 then u + 32 else u

/-- Condition of the explicit n-apostrophe branch of romanize.js:
ch is n and ch2 is a straight (39) or curly (8217) apostrophe. -/
def cond1 (c c2 : Nat) : Bool := c == 110 && (c2 == 39 || c2 == 8217)

/-- Condition of the vowel + n + y + vowel disambiguation branch:
ch is n, ch2 is y, ch3 is a vowel and the previously consumed raw
character was a vowel. -/
def cond2 (prev c c2 c3 : Nat) : Bool :=
  c == 110 && c2 == 121 && isVowel c3 && isVowel prev

/-- Condition of the sokuon branch: a next character exists and equals the
current one, which is neither a vowel nor n. -/
def cond3 (c : Nat) (rest : List Nat) : Bool :=
  !rest.isEmpty && rest.headD 0 == c && !isVowel c && c != 110

/-- One iteration of the while loop body of romajiToHiragana, on current
character c with remaining suffix rest and previous raw character prev.
Returns (emitted units, consumed count, new prevRaw).  Branches appear in
source order: n-apostrophe, vowel-n-y-vowel, sokuon, 3-unit table try,
2-unit table try, standalone n, 1-unit table try, passthrough.  A missing
character (s[i+k] out of range, which JS turns into undefined or the empty
string) is modelled by the sentinel 0, which no branch can confuse with a
real character because 0 is compared only against nonzero units and
isVowel 0 is false.  12435 is hiragana N, 12387 is small TSU. -/
def step (prev c : Nat) (rest : List Nat) : List Nat × Nat × Nat :=
  let c2 := rest.headD 0
  let c3 := (rest.drop 1).headD 0
  if cond1 c c2 then ([12435], 2, c2)
  else if cond2 prev c c2 c3 then ([12435], 1, 110)
  else if cond3 c rest then ([12387], 1, c)
  else
    match tableLookup ((c :: rest).take 3) with
    | some v => (v, 3, c3)
    | none =>
      match tableLookup ((c :: rest).take 2) with
      | some v => (v, 2, c2)
      | none =>
        if c == 110 && !(isVowel c2 || (c2 == 121 && isVowel c3)) then ([12435], 1, 110)
        else
          match tableLookup [c] with
          | some v => (v, 1, c)
          | none => ([c], 1, c)

/-- The while loop of romajiToHiragana, driven by a fuel argument so that
it is structurally recursive and computes by evaluation.  Fuel equal to
the length of the input suffices because every branch of step consumes at
least one character (proved below); scanFuel is moreover insensitive to
any fuel at or above the input length (lemma scanFuel_congr). -/
def scanFuel : Nat → Nat → List Nat → List Nat
  | 0, _, _ => []
  | _ + 1, _, [] => []
  | fuel + 1, prev, c :: rest =>
    (step prev c rest).1 ++
      scanFuel fuel (step prev c rest).2.2 (rest.drop ((step prev c rest).2.1 - 1))

/-- The scanning loop started on a suffix with a given prevRaw. -/
def scanAux (prev : Nat) (s : List Nat) : List Nat := scanFuel s.length prev s

/-- romajiToHiragana of romanize.js: lower-case the input, then scan it
from the start with prevRaw initially empty (sentinel 0). -/
def romajiToHiragana (input : List Nat) : List Nat :=
  scanAux 0 (input.map toLower)

/-- Iteration counter of the while loop: how many times the loop body runs
on the given suffix (same fuel discipline as scanFuel). -/
def scanStepsFuel : Nat → Nat → List Nat → Nat
  | 0, _, _ => 0
  | _ + 1, _, [] => 0
  | fuel + 1, prev, c :: rest =>
    1 + scanStepsFuel fuel (step prev c rest).2.2 (rest.drop ((step prev c rest).2.1 - 1))

/-- Number of loop iterations of the scan on input s. -/
def scanSteps (prev : Nat) (s : List Nat) : Nat := scanStepsFuel s.length prev s

/-- lcp of PracticeScreen.jsx (lines 193-198): the while loop advances i
while i is below both lengths and a[i] === b[i]; the result counts the
leading positions at which the two code-unit sequences agree. -/
def lcp : List Nat → List Nat → Nat
  | a :: as, b :: bs => if a == b then lcp as bs + 1 else 0
  | _, _ => 0

/-- matchedCount of the progress matcher: lcp of the typed kana and the
target (PracticeScreen.jsx line 245). -/
def matchedCount (typedKana target : List Nat) : Nat := lcp typedKana target

/-- isComplete of the progress matcher: the completion condition of
onChange (PracticeScreen.jsx line 252),
kana === currentTarget && currentTarget.length > 0. -/
def isComplete (typedKana target : List Nat) : Bool :=
  typedKana == target && decide (0 < target.length)

/-- Modelled from the spec: the spec measures matchedCount in Unicode code
points, not UTF-16 code units.  This decoder turns a code-unit sequence
into its code-point sequence: a high surrogate (55296-56319) followed by a
low surrogate (56320-57343) combines into one supplementary code point;
every other unit stands for itself. -/
def decodeUtf16 : List Nat → List Nat
  | [] => []
  | [u] => [u]
  | u :: u2 :: rest =>
    if 55296 ≤ u && u ≤ 56319 && 56320 ≤ u2 && u2 ≤ 57343 then
      (65536 + (u - 55296) * 1024 + (u2 - 56320)) :: decodeUtf16 rest
    else u :: decodeUtf16 (u2 :: rest)

/-- A code unit is a surrogate half (the units on which code-unit and
code-point counting can differ). -/
def isSurrogate (u : Nat) : Bool := 55296 ≤ u && u ≤ 57343

/-- No two adjacent equal units in the list. -/
def noAdjEq : List Nat → Bool
  | a :: b :: r => a != b && noAdjEq (b :: r)
  | _ => true

/-- Units that the scan can never act on: not a vowel, not n, not an ASCII
uppercase letter.  Every output unit of the scan is of this kind, which is
what stops rescanning from firing any table rule. -/
def goodUnit (u : Nat) : Bool :=
  !isVowel u && u != 110 && !(65 ≤ u && u ≤ 90)

/-- All code units occurring in some key of the mapping table (the known
Latin/apostrophe alphabet of the spec). -/
def knownChars : List Nat := (ROMAJI_TO_HIRA.map (fun q => q.1)).flatten

/-- A lowercase ASCII consonant letter other than n (the class of
characters named by the sokuon claim). -/
def isConsonantLetter (c : Nat) : Bool :=
  97 ≤ c && c ≤ 122 && !isVowel c && c != 110

/-! Helper lemmas about the scan. -/

lemma scanFuel_nil (f p : Nat) : scanFuel f p [] = [] := by
  cases f <;> rfl

lemma scanStepsFuel_nil (f p : Nat) : scanStepsFuel f p [] = 0 := by
  cases f <;> rfl

lemma drop_len_le (k : Nat) (rest : List Nat) :
    (rest.drop k).length ≤ rest.length := by
  simp [List.length_drop]

lemma scanFuel_congr : ∀ (f g p : Nat) (s : List Nat),
    s.length ≤ f → s.length ≤ g → scanFuel f p s = scanFuel g p s := by
  intro f
  induction f with
  | zero =>
    intro g p s hf _
    have hs : s = [] := List.eq_nil_of_length_eq_zero (Nat.le_zero.mp hf)
    subst hs
    simp [scanFuel_nil]
  | succ f ih =>
    intro g p s hf hg
    cases s with
    | nil => simp [scanFuel_nil]
    | cons c rest =>
      cases g with
      | zero => simp at hg
      | succ g2 =>
        have hf2 : rest.length ≤ f := by simp at hf; omega
        have hg2 : rest.length ≤ g2 := by simp at hg; omega
        have hd := drop_len_le ((step p c rest).2.1 - 1) rest
        simp only [scanFuel]
        congr 1
        exact ih g2 _ _ (hd.trans hf2) (hd.trans hg2)

lemma scanAux_cons (p c : Nat) (rest : List Nat) :
    scanAux p (c :: rest) =
      (step p c rest).1 ++
        scanAux (step p c rest).2.2 (rest.drop ((step p c rest).2.1 - 1)) := by
  unfold scanAux
  simp only [List.length_cons, scanFuel]
  congr 1
  exact scanFuel_congr rest.length _ _ _
    (drop_len_le _ _) (le_refl _)

lemma step_consumed (p c : Nat) (rest : List Nat) :
    1 ≤ (step p c rest).2.1 ∧ (step p c rest).2.1 ≤ 3 := by
  simp only [step]
  repeat' split
  all_goals simp

lemma tableLookup_mem {k v : List Nat} (h : tableLookup k = some v) :
    (k, v) ∈ ROMAJI_TO_HIRA := by
  unfold tableLookup at h
  cases hf : ROMAJI_TO_HIRA.find? (fun q => q.1 == k) with
  | none => rw [hf] at h; simp at h
  | some q =>
    rw [hf] at h
    have hm := List.mem_of_find?_eq_some hf
    have hp := List.find?_some hf
    simp only [beq_iff_eq] at hp
    obtain ⟨q1, q2⟩ := q
    simp at h hp
    subst hp
    subst h
    exact hm

lemma table_vals_good : ∀ p ∈ ROMAJI_TO_HIRA, ∀ u ∈ p.2, goodUnit u = true := by decide

lemma table_keys_bad : ∀ p ∈ ROMAJI_TO_HIRA, ∃ u ∈ p.1, goodUnit u = false := by decide

lemma table_keys_head_known : ∀ p ∈ ROMAJI_TO_HIRA, p.1.headD 0 ∈ knownChars := by decide

lemma tableLookup_eq_none_of_good {q : List Nat}
    (h : ∀ u ∈ q, goodUnit u = true) : tableLookup q = none := by
  unfold tableLookup
  rw [List.find?_eq_none.mpr]
  · rfl
  intro p hp hbeq
  simp only [beq_iff_eq] at hbeq
  obtain ⟨u, hu, hbad⟩ := table_keys_bad p hp
  rw [hbeq] at hu
  rw [h u hu] at hbad
  simp at hbad

lemma tableLookup_cons_none_of_unknown {c : Nat} (h : c ∉ knownChars)
    (q : List Nat) : tableLookup (c :: q) = none := by
  unfold tableLookup
  rw [List.find?_eq_none.mpr]
  · rfl
  intro p hp hbeq
  simp only [beq_iff_eq] at hbeq
  have hk := table_keys_head_known p hp
  rw [hbeq] at hk
  simp only [List.headD_cons] at hk
  exact h hk

lemma lookup_single_none_facts {c : Nat} (h : tableLookup [c] = none) :
    isVowel c = false ∧ c ≠ 110 := by
  constructor
  · cases hv : isVowel c with
    | false => rfl
    | true =>
      exfalso
      simp only [isVowel, Bool.or_eq_true, beq_iff_eq] at hv
      rcases hv with (((h1 | h1) | h1) | h1) | h1 <;> (subst h1; exact absurd h (by decide))
  · intro h1
    subst h1
    exact absurd h (by decide)

lemma step_emit {p c u : Nat} {rest : List Nat} (h : u ∈ (step p c rest).1) :
    goodUnit u = true ∨ (u = c ∧ tableLookup [c] = none) := by
  simp only [step] at h
  split at h
  · left; simp at h; subst h; decide
  split at h
  · left; simp at h; subst h; decide
  split at h
  · left; simp at h; subst h; decide
  split at h
  case h_1 v heq =>
    left
    exact table_vals_good _ (tableLookup_mem heq) u h
  split at h
  case h_1 v heq =>
    left
    exact table_vals_good _ (tableLookup_mem heq) u h
  split at h
  · left; simp at h; subst h; decide
  split at h
  case h_1 v heq =>
    left
    exact table_vals_good _ (tableLookup_mem heq) u h
  case h_2 heq =>
    simp at h
    subst h
    exact Or.inr ⟨rfl, heq⟩

lemma goodUnit_iff {u : Nat} :
    goodUnit u = true ↔ isVowel u = false ∧ u ≠ 110 ∧ ¬(65 ≤ u ∧ u ≤ 90) := by
  unfold goodUnit
  simp [Bool.and_eq_true, Bool.not_eq_true', bne_iff_ne]
  refine ⟨fun h => ⟨h.1.1, h.1.2, by omega⟩, fun h => ⟨⟨h.1, h.2.1⟩, by omega⟩⟩

lemma toLower_not_upper (u : Nat) : ¬(65 ≤ toLower u ∧ toLower u ≤ 90) := by
  unfold toLower
  split
  case isTrue h => simp at h ⊢; omega
  case isFalse h => simp at h ⊢; omega

lemma toLower_fixed_of_good {u : Nat} (h : goodUnit u = true) : toLower u = u := by
  obtain ⟨_, _, h3⟩ := goodUnit_iff.mp h
  unfold toLower
  have hc : (65 ≤ u && u ≤ 90) = false := by simp; omega
  rw [hc]
  rfl

lemma map_toLower_fixed {t : List Nat} (hg : ∀ u ∈ t, goodUnit u = true) :
    t.map toLower = t := by
  induction t with
  | nil => rfl
  | cons a t ih =>
    simp only [List.map_cons]
    rw [toLower_fixed_of_good (hg a (by simp)),
      ih (fun u hu => hg u (by simp [hu]))]

lemma scanFuel_good : ∀ (f p : Nat) (s : List Nat),
    (∀ u ∈ s, ¬(65 ≤ u ∧ u ≤ 90)) →
    ∀ u ∈ scanFuel f p s, goodUnit u = true := by
  intro f
  induction f with
  | zero => intro p s _ u hu; simp [scanFuel] at hu
  | succ f ih =>
    intro p s hs u hu
    cases s with
    | nil => simp [scanFuel_nil] at hu
    | cons c rest =>
      simp only [scanFuel, List.mem_append] at hu
      rcases hu with hu | hu
      · rcases step_emit hu with hg | ⟨rfl, hnone⟩
        · exact hg
        · obtain ⟨hv, hn⟩ := lookup_single_none_facts hnone
          exact goodUnit_iff.mpr ⟨hv, hn, hs u (by simp)⟩
      · exact ih _ _
          (fun u2 hu2 => hs u2 (List.mem_cons_of_mem c (List.drop_subset _ _ hu2))) u hu

lemma step_pass {p c : Nat} {rest : List Nat}
    (h1 : cond1 c (rest.headD 0) = false)
    (h2 : cond2 p c (rest.headD 0) ((rest.drop 1).headD 0) = false)
    (h3 : cond3 c rest = false)
    (htri : tableLookup ((c :: rest).take 3) = none)
    (hbi : tableLookup ((c :: rest).take 2) = none)
    (hn : c ≠ 110)
    (huni : tableLookup [c] = none) :
    step p c rest = ([c], 1, c) := by
  have hn2 : (c == 110) = false := by simp [hn]
  simp only [step, h1, h2, h3, htri, hbi, huni, hn2]
  simp

lemma scanFuel_fixed : ∀ (f p : Nat) (t : List Nat), t.length ≤ f →
    (∀ u ∈ t, goodUnit u = true) → noAdjEq t = true →
    scanFuel f p t = t := by
  intro f
  induction f with
  | zero =>
    intro p t hl _ _
    have ht : t = [] := List.eq_nil_of_length_eq_zero (Nat.le_zero.mp hl)
    subst ht
    rfl
  | succ f ih =>
    intro p t hl hg hne
    cases t with
    | nil => exact scanFuel_nil _ _
    | cons c rest =>
      obtain ⟨hcv, hcn, hcu⟩ := goodUnit_iff.mp (hg c (by simp))
      have hn2 : (c == 110) = false := by simp [hcn]
      have h1 : cond1 c (rest.headD 0) = false := by simp [cond1, hn2]
      have h2 : cond2 p c (rest.headD 0) ((rest.drop 1).headD 0) = false := by
        simp [cond2, hn2]
      have h3 : cond3 c rest = false := by
        cases rest with
        | nil => simp [cond3]
        | cons b r =>
          simp only [noAdjEq, Bool.and_eq_true, bne_iff_ne] at hne
          simp [cond3, Ne.symm hne.1]
      have hsub : ∀ (k : Nat), ∀ u ∈ (c :: rest).take k, goodUnit u = true :=
        fun k u hu => hg u (List.take_subset k _ hu)
      have htri := tableLookup_eq_none_of_good (hsub 3)
      have hbi := tableLookup_eq_none_of_good (hsub 2)
      have huni : tableLookup [c] = none := by
        apply tableLookup_eq_none_of_good
        intro u hu
        simp at hu
        rw [hu]
        exact hg c (by simp)
      have hstep := step_pass h1 h2 h3 htri hbi hcn huni
      simp only [scanFuel, hstep, List.drop_zero, Nat.sub_self]
      have hrest : scanFuel f c rest = rest := by
        apply ih
        · simp at hl; omega
        · exact fun u hu => hg u (by simp [hu])
        · cases rest with
          | nil => rfl
          | cons b r =>
            simp only [noAdjEq, Bool.and_eq_true] at hne
            exact hne.2
      rw [hrest]
      rfl

lemma scanStepsFuel_le : ∀ (f p : Nat) (s : List Nat), scanStepsFuel f p s ≤ s.length := by
  intro f
  induction f with
  | zero => intro p s; simp [scanStepsFuel]
  | succ f ih =>
    intro p s
    cases s with
    | nil => simp [scanStepsFuel_nil]
    | cons c rest =>
      simp only [scanStepsFuel, List.length_cons]
      have h1 := ih (step p c rest).2.2 (rest.drop ((step p c rest).2.1 - 1))
      have h2 := drop_len_le ((step p c rest).2.1 - 1) rest
      omega

lemma decodeUtf16_id : ∀ (a : List Nat), (∀ u ∈ a, isSurrogate u = false) →
    decodeUtf16 a = a
  | [] => fun _ => rfl
  | [_] => fun _ => rfl
  | u :: u2 :: rest => fun h => by
    have hu := h u (by simp)
    simp only [decodeUtf16]
    split
    case isTrue hcond =>
      exfalso
      simp [isSurrogate] at hu
      simp at hcond
      omega
    case isFalse hcond =>
      rw [decodeUtf16_id (u2 :: rest) (fun v hv => h v (List.mem_cons_of_mem u hv))]

lemma lcp_nil_right (a : List Nat) : lcp a [] = 0 := by
  cases a <;> rfl

/-! Claim theorems. -/

/-- C1 counterexample: the claim says convert("n") withholds the kana and
emits nothing; in fact romajiToHiragana on the single unit n (110) emits
hiragana N (12435), so the output is not empty. -/
theorem C1_counterexample :
    romajiToHiragana (w ("n")) = [12435] ∧ romajiToHiragana (w ("n")) ≠ [] := by
  decide

/-- C1 (amended): a standalone n at the end of the buffer is not withheld:
whatever prevRaw is, the scan on the single remaining character n emits
hiragana N and finishes, so convert("n") = "ん"; and convert("nk") = "んk". -/
theorem C1_amended :
    (∀ prev : Nat, scanAux prev [110] = [12435]) ∧
    romajiToHiragana (w ("n")) = w ("ん") ∧
    romajiToHiragana (w ("nk")) = w ("んk") := by
  refine ⟨fun prev => rfl, by decide, by decide⟩

/-- C2 counterexample: convert is not idempotent: convert("kaka") = "かか"
but convert("かか") = "っか", because the doubled kana re-triggers the
sokuon branch. -/
theorem C2_counterexample :
    romajiToHiragana (romajiToHiragana (w ("kaka"))) ≠ romajiToHiragana (w ("kaka")) := by
  decide

/-- C2 (amended): convert(convert(s)) = convert(s) for every s whose output
convert(s) has no two adjacent equal units.  Kana output units never match
any Latin-keyed table rule; the only rule a kana can re-trigger is the
sokuon branch on a doubled unit, which the hypothesis rules out. -/
theorem C2_amended (s : List Nat) (h : noAdjEq (romajiToHiragana s) = true) :
    romajiToHiragana (romajiToHiragana s) = romajiToHiragana s := by
  have hGood : ∀ u ∈ romajiToHiragana s, goodUnit u = true := by
    intro u hu
    unfold romajiToHiragana scanAux at hu
    refine scanFuel_good _ _ _ ?_ u hu
    intro v hv
    simp only [List.mem_map] at hv
    obtain ⟨x, _, rfl⟩ := hv
    exact toLower_not_upper x
  show scanAux 0 ((romajiToHiragana s).map toLower) = romajiToHiragana s
  rw [map_toLower_fixed hGood]
  show scanFuel (romajiToHiragana s).length 0 (romajiToHiragana s) = romajiToHiragana s
  exact scanFuel_fixed _ 0 _ (le_refl _) hGood h

/-- C2 witness: the amended idempotence applied to the concrete input
"gakkou", whose output "がっこう" has no adjacent equal units. -/
theorem C2_witness :
    noAdjEq (romajiToHiragana (w ("gakkou"))) = true ∧
    romajiToHiragana (romajiToHiragana (w ("gakkou"))) = romajiToHiragana (w ("gakkou")) :=
  ⟨by decide, C2_amended (w ("gakkou")) (by decide)⟩

/-- C3 counterexample: on strings with a supplementary-plane character
(here U+1D11E as the surrogate pair 55348, 56606) the matcher counts 2
code units for the common run, while the common run has 1 code point, so
matchedCount is not a code-point count. -/
theorem C3_counterexample :
    matchedCount [55348, 56606, 12354] [55348, 56606, 12356] = 2 ∧
    lcp (decodeUtf16 [55348, 56606, 12354]) (decodeUtf16 [55348, 56606, 12356]) = 1 ∧
    (2 : Nat) ≠ 1 := by
  decide

/-- C3 (amended): matchedCount is the longest common leading run counted in
UTF-16 code units; this agrees with the code-point count whenever neither
string contains surrogate units (true of all hiragana), and the three
quoted examples hold as stated. -/
theorem C3_amended :
    (∀ a b : List Nat, (∀ u ∈ a, isSurrogate u = false) →
      (∀ u ∈ b, isSurrogate u = false) →
      matchedCount a b = lcp (decodeUtf16 a) (decodeUtf16 b)) ∧
    matchedCount (w ("がっこう")) (w ("がっこう")) = 4 ∧
    isComplete (w ("がっこう")) (w ("がっこう")) = true ∧
    matchedCount (w ("がっ")) (w ("がっこう")) = 2 ∧
    isComplete (w ("がっ")) (w ("がっこう")) = false ∧
    matchedCount (w ("がつ")) (w ("がっこう")) = 1 := by
  refine ⟨fun a b ha hb => ?_, by decide, by decide, by decide, by decide, by decide⟩
  rw [decodeUtf16_id a ha, decodeUtf16_id b hb]
  rfl

/-- C3 witness: the code-unit and code-point counts agree on the concrete
surrogate-free pair ("がっ", "がっこう"). -/
theorem C3_witness :
    (∀ u ∈ w ("がっ"), isSurrogate u = false) ∧
    matchedCount (w ("がっ")) (w ("がっこう")) =
      lcp (decodeUtf16 (w ("がっ"))) (decodeUtf16 (w ("がっこう"))) :=
  ⟨by decide, C3_amended.1 (w ("がっ")) (w ("がっこう")) (by decide) (by decide)⟩

/-- C4 counterexample: an n + y + vowel sequence is not consumed as the
three-letter digraph regardless of context: after a vowel the scan emits
hiragana N alone, so convert("anya") = "あんや" and not "あにゃ". -/
theorem C4_counterexample :
    romajiToHiragana (w ("anya")) = w ("あんや") ∧
    romajiToHiragana (w ("anya")) ≠ w ("あにゃ") := by
  decide

/-- C4 (amended): at every scan position where neither the n-apostrophe
rule, nor the vowel-n-y-vowel disambiguation rule, nor the sokuon rule
applied, the scan consumes the longest table key (3 units tried before 2)
that is a literal prefix of the remaining input and emits its kana;
convert("cho") = "ちょ", while convert("anya") = "あんや" because after a
vowel the disambiguation rule takes precedence over the nya digraph. -/
theorem C4_amended :
    (∀ prev c : Nat, ∀ rest : List Nat,
      cond1 c (rest.headD 0) = false →
      cond2 prev c (rest.headD 0) ((rest.drop 1).headD 0) = false →
      cond3 c rest = false →
      (∀ v, tableLookup ((c :: rest).take 3) = some v →
        scanAux prev (c :: rest) = v ++ scanAux ((rest.drop 1).headD 0) (rest.drop 2)) ∧
      (tableLookup ((c :: rest).take 3) = none →
        ∀ v, tableLookup ((c :: rest).take 2) = some v →
          scanAux prev (c :: rest) = v ++ scanAux (rest.headD 0) (rest.drop 1))) ∧
    romajiToHiragana (w ("cho")) = w ("ちょ") ∧
    romajiToHiragana (w ("anya")) = w ("あんや") := by
  refine ⟨fun prev c rest h1 h2 h3 => ⟨fun v htri => ?_, fun htri v hbi => ?_⟩,
    by decide, by decide⟩
  · have hstep : step prev c rest = (v, 3, (rest.drop 1).headD 0) := by
      simp only [step, h1, h2, h3, htri]
      simp
    rw [scanAux_cons, hstep]
    rfl
  · have hstep : step prev c rest = (v, 2, rest.headD 0) := by
      simp only [step, h1, h2, h3, htri, hbi]
      simp
    rw [scanAux_cons, hstep]
    rfl

/-- C4 witness: the greedy 3-unit match applied to the concrete remaining
input "cho" (99, 104, 111). -/
theorem C4_witness :
    tableLookup [99, 104, 111] = some (w ("ちょ")) ∧
    scanAux 0 [99, 104, 111] = w ("ちょ") ++ scanAux 111 [] := by
  constructor
  · decide
  · have h := (C4_amended.1 0 99 [104, 111] (by decide) (by decide) (by decide)).1
      (w ("ちょ")) (by decide)
    simpa using h

/-- C5 counterexample: q (113) is outside the known alphabet, yet the
input "qq" does not pass its first character through verbatim: the sokuon
branch fires on the doubled unknown character and emits small TSU
(12387), a substitute kana. -/
theorem C5_counterexample :
    (113 ∉ knownChars) ∧ romajiToHiragana [113, 113] = [12387, 113] ∧
    ([12387, 113] : List Nat) ≠ [113, 113] := by
  decide

/-- C5 (amended): every character of the lower-cased buffer outside the
known Latin/apostrophe alphabet that is not immediately followed by an
identical character is passed through to the output verbatim, one
character yielding itself; a doubled such character instead first yields
small TSU by the sokuon rule. -/
theorem C5_amended :
    ∀ prev c : Nat, ∀ rest : List Nat, c ∉ knownChars →
      (rest = [] ∨ rest.headD 0 ≠ c) →
      scanAux prev (c :: rest) = c :: scanAux c rest := by
  intro prev c rest hc hne
  have hn : c ≠ 110 := fun h => hc (h ▸ (by decide : (110 : Nat) ∈ knownChars))
  have h1 : cond1 c (rest.headD 0) = false := by simp [cond1, hn]
  have h2 : cond2 prev c (rest.headD 0) ((rest.drop 1).headD 0) = false := by
    simp [cond2, hn]
  have h3 : cond3 c rest = false := by
    cases rest with
    | nil => simp [cond3]
    | cons b r =>
      rcases hne with h | hne
      · exact absurd h (List.cons_ne_nil b r)
      · simp only [List.headD_cons] at hne
        simp [cond3, hne]
  have htri : tableLookup ((c :: rest).take 3) = none := by
    rw [List.take_succ_cons]
    exact tableLookup_cons_none_of_unknown hc _
  have hbi : tableLookup ((c :: rest).take 2) = none := by
    rw [List.take_succ_cons]
    exact tableLookup_cons_none_of_unknown hc _
  have huni : tableLookup [c] = none := tableLookup_cons_none_of_unknown hc []
  have hstep := step_pass h1 h2 h3 htri hbi hn huni
  rw [scanAux_cons, hstep]
  rfl

/-- C5 witness: the percent sign (37) is outside the known alphabet and is
passed through verbatim by the scan. -/
theorem C5_witness :
    (37 ∉ knownChars) ∧ scanAux 0 [37] = 37 :: scanAux 37 [] :=
  ⟨by decide, C5_amended 0 37 [] (by decide) (Or.inl rfl)⟩

/-- C6: for every (romaji, kana) pair of the mapping table, applying
romajiToHiragana to the key alone returns exactly its kana value. -/
theorem C6_exact_match : ∀ p ∈ ROMAJI_TO_HIRA, romajiToHiragana p.1 = p.2 := by
  decide

/-- C6 witness: the exact-match property at the concrete pair (kya, きゃ). -/
theorem C6_witness :
    ((w ("kya"), w ("きゃ")) ∈ ROMAJI_TO_HIRA) ∧
    romajiToHiragana (w ("kya")) = w ("きゃ") :=
  ⟨by decide, C6_exact_match (w ("kya"), w ("きゃ")) (by decide)⟩

/-- C7: an explicit n followed by a straight (39) or curly (8217)
apostrophe always converts to hiragana N consuming exactly two characters,
whatever prevRaw and whatever follows; convert("kon" + apostrophe + "i") =
"こんい" while convert("koni") = "こに". -/
theorem C7_explicit_nasal :
    (∀ prev : Nat, ∀ rest : List Nat,
      scanAux prev (110 :: 39 :: rest) = 12435 :: scanAux 39 rest ∧
      scanAux prev (110 :: 8217 :: rest) = 12435 :: scanAux 8217 rest) ∧
    romajiToHiragana [107, 111, 110, 39, 105] = w ("こんい") ∧
    romajiToHiragana (w ("koni")) = w ("こに") := by
  refine ⟨fun prev rest => ⟨?_, ?_⟩, by decide, by decide⟩
  · rw [scanAux_cons]; rfl
  · rw [scanAux_cons]; rfl

/-- C8: whenever the current character equals the next and both are
consonant letters (not vowels, not n), the scan emits small TSU and
consumes exactly one character, leaving the duplicate consonant for the
following match; convert("gakkou") = "がっこう". -/
theorem C8_sokuon :
    (∀ prev c : Nat, ∀ rest : List Nat, isConsonantLetter c = true →
      scanAux prev (c :: c :: rest) = 12387 :: scanAux c (c :: rest)) ∧
    romajiToHiragana (w ("gakkou")) = w ("がっこう") := by
  refine ⟨fun prev c rest hc => ?_, by decide⟩
  simp only [isConsonantLetter, Bool.and_eq_true, bne_iff_ne, Bool.not_eq_true',
    decide_eq_true_iff] at hc
  obtain ⟨⟨⟨_, _⟩, hv⟩, hn⟩ := hc
  have hn110 : (c == 110) = false := by simp [hn]
  have h3 : cond3 c (c :: rest) = true := by simp [cond3, hv, hn]
  have hstep : step prev c (c :: rest) = ([12387], 1, c) := by
    simp [step, cond1, cond2, hn110, h3]
  rw [scanAux_cons, hstep]
  rfl

/-- C8 witness: the sokuon rule applied at the concrete doubled consonant
k (107, 107). -/
theorem C8_witness :
    isConsonantLetter 107 = true ∧
    scanAux 0 [107, 107] = 12387 :: scanAux 107 [107] :=
  ⟨by decide, C8_sokuon.1 0 107 [] (by decide)⟩

/-- C9: isComplete is true exactly when the typed kana equals the target
and the target is non-empty; with an empty target isComplete is false and
matchedCount is 0 for every typed string. -/
theorem C9_matcher_complete :
    ∀ typedKana target : List Nat,
      (isComplete typedKana target = true ↔ typedKana = target ∧ target ≠ []) ∧
      isComplete typedKana [] = false ∧ matchedCount typedKana [] = 0 := by
  intro a b
  refine ⟨?_, ?_, ?_⟩
  · simp [isComplete, List.length_pos]
  · simp [isComplete]
  · exact lcp_nil_right a

/-- C10: termination of the scan: every branch of the loop body consumes
at least 1 and at most 3 characters, and the loop therefore runs at most
length-many iterations on any input. -/
theorem C10_termination :
    (∀ prev c : Nat, ∀ rest : List Nat,
      1 ≤ (step prev c rest).2.1 ∧ (step prev c rest).2.1 ≤ 3) ∧
    (∀ prev : Nat, ∀ s : List Nat, scanSteps prev s ≤ s.length) :=
  ⟨fun prev c rest => step_consumed prev c rest,
    fun prev s => scanStepsFuel_le s.length prev s⟩
